import Mathlib

set_option maxRecDepth 10000

namespace DiffPoetryLock

/-! Shallow embedding of the diff-and-reconcile core of diff-poetry-lock:
the data model and operations of src/diff_poetry_lock/github.py and
src/diff_poetry_lock/run_poetry.py. Network transport is modelled by
passing the fetched data (comment pages already concatenated, lockfiles
already parsed into package lists) as explicit arguments, and by
recording each comment mutation as an explicit Action value. -/

/-- Python str.startswith, modelled on the character list of the string. -/
def strStartsWith (s pre : String) : Bool :=
  List.isPrefixOf pre.data s.data

/-- MAGIC_COMMENT_IDENTIFIER from github.py. -/
def MAGIC_COMMENT_IDENTIFIER : String :=
  "<!-- posted by Github Action nborrmann/diff-poetry-lock -->\n\n"

/-- MAGIC_BOT_USER_ID from github.py. -/
def MAGIC_BOT_USER_ID : Nat := 41898282

/-- GithubComment.GithubUser from github.py. -/
structure GithubUser where
  id_ : Nat
deriving DecidableEq

/-- GithubComment from github.py. -/
structure GithubComment where
  body : String
  id_ : Nat
  user : GithubUser
deriving DecidableEq

/-- GithubComment.is_bot_comment from github.py. -/
def GithubComment.is_bot_comment (c : GithubComment) : Bool :=
  strStartsWith c.body MAGIC_COMMENT_IDENTIFIER && (c.user.id_ == MAGIC_BOT_USER_ID)

/-- The comment mutation performed by one run of the reconciler: either no
remote call, or one create / update / delete call with the body it sends. -/
inductive Action where
  | noop : Action
  | create (body : String) : Action
  | update (id_ : Nat) (body : String) : Action
  | delete (id_ : Nat) : Action
deriving DecidableEq

/-- GithubApi.post_comment from github.py: returns without posting when the
comment is empty or no PR number is available (Python truthiness tests on
str, with the absent PR number modelled as the empty string); otherwise
posts the comment body with MAGIC_COMMENT_IDENTIFIER prepended. -/
def post_comment_action (pr_num : String) (comment : String) : Action :=
  if comment = "" then Action.noop
  else if pr_num = "" then Action.noop
  else Action.create (MAGIC_COMMENT_IDENTIFIER ++ comment)

/-- GithubApi.update_comment from github.py: patches the comment body,
with MAGIC_COMMENT_IDENTIFIER prepended, unconditionally. -/
def update_comment_action (comment_id : Nat) (comment : String) : Action :=
  Action.update comment_id (MAGIC_COMMENT_IDENTIFIER ++ comment)

/-- GithubApi.delete_comment from github.py. -/
def delete_comment_action (comment_id : Nat) : Action :=
  Action.delete comment_id

/-- GithubApi.upsert_comment from github.py: the four-way dispatch on the
None-ness of the existing comment and of the new comment body. -/
def upsert_comment (pr_num : String) (existing_comment : Option GithubComment)
    (comment : Option String) : Action :=
  match existing_comment, comment with
  | none, none => Action.noop
  | none, some c => post_comment_action pr_num c
  | some e, none => delete_comment_action e.id_
  | some e, some c =>
    if e.body = MAGIC_COMMENT_IDENTIFIER ++ c then Action.noop
    else update_comment_action e.id_ c

/-- GithubApi.list_comments from github.py: returns [] when no PR number is
available, otherwise filters the fetched comments down to bot comments.
The paginated HTTP fetch is modelled by the already-concatenated list of
all comments on the pull request. -/
def list_comments (pr_num : String) (all_comments : List GithubComment) :
    List GithubComment :=
  if pr_num = "" then []
  else all_comments.filter (fun c => c.is_bot_comment)

/-- Modelled from the spec: the remote effect of applying an Action on the
tracking comment, used to state reconciler idempotence ("applying an
update or create then re-fetching and re-deciding"). A created comment
carries the sent body, a fresh id and the bot author id; an update
replaces the body of the comment with the given id; a delete removes the
comment. -/
def applyAction (new_id : Nat) : Action → Option GithubComment → Option GithubComment
  | Action.noop, e => e
  | Action.create b, _ => some { body := b, id_ := new_id, user := { id_ := MAGIC_BOT_USER_ID } }
  | Action.update i b, e =>
    match e with
    | some ex => some { body := b, id_ := i, user := ex.user }
    | none => none
  | Action.delete _, _ => none

/-- Whether an Action is a create or an update. -/
def Action.isCreateOrUpdate : Action → Bool
  | Action.create _ => true
  | Action.update _ _ => true
  | _ => false

/-- The two fields of a poetry Package that run_poetry.py reads. -/
structure Package where
  pretty_name : String
  full_pretty_version : String
deriving DecidableEq

/-- PackageSummary from run_poetry.py. -/
structure PackageSummary where
  name : String
  old_version : Option String := none
  new_version : Option String := none
deriving DecidableEq

/-- PackageSummary.not_changed from run_poetry.py. -/
def PackageSummary.not_changed (s : PackageSummary) : Bool :=
  s.new_version == s.old_version

/-- PackageSummary.changed from run_poetry.py. -/
def PackageSummary.changed (s : PackageSummary) : Bool :=
  !s.not_changed

/-- PackageSummary.updated from run_poetry.py. -/
def PackageSummary.updated (s : PackageSummary) : Bool :=
  s.new_version.isSome && s.old_version.isSome && s.changed

/-- PackageSummary.added from run_poetry.py. -/
def PackageSummary.added (s : PackageSummary) : Bool :=
  s.new_version.isSome && s.old_version.isNone

/-- PackageSummary.removed from run_poetry.py. -/
def PackageSummary.removed (s : PackageSummary) : Bool :=
  s.new_version.isNone && s.old_version.isSome

/-- PackageSummary.summary_line from run_poetry.py; the ValueError raise is
modelled as Except.error. In the three formatting branches the version
fields are provably present, so extracting them with getD is exact. -/
def PackageSummary.summary_line (s : PackageSummary) : Except String String :=
  if s.updated then
    Except.ok ("Updated **" ++ s.name ++ "** (" ++ s.old_version.getD "" ++ " -> "
      ++ s.new_version.getD "" ++ ")")
  else if s.added && s.new_version.isSome then
    Except.ok ("Added **" ++ s.name ++ "** (" ++ s.new_version.getD "" ++ ")")
  else if s.removed && s.old_version.isSome then
    Except.ok ("Removed **" ++ s.name ++ "** (" ++ s.old_version.getD "" ++ ")")
  else if s.new_version.isNone then
    Except.error "Inconsistent State"
  else
    Except.ok ("Not changed **" ++ s.name ++ "** (" ++ s.new_version.getD "" ++ ")")

/-- Python dict entry assignment merged[s.name] = s on an insertion-ordered
record list: replace in place when the key exists, append otherwise. -/
def dictSet (m : List PackageSummary) (s : PackageSummary) : List PackageSummary :=
  if m.any (fun p => p.name == s.name) then
    m.map (fun p => if p.name == s.name then s else p)
  else
    m ++ [s]

/-- The field mutation merged[n].new_version = v from the second loop of diff. -/
def setNewVersion (m : List PackageSummary) (n v : String) : List PackageSummary :=
  m.map (fun p => if p.name == n then { p with new_version := some v } else p)

/-- One iteration of the first loop of diff in run_poetry.py: overwrite the
record for the package name with a fresh record holding only old_version. -/
def seedStep (m : List PackageSummary) (p : Package) : List PackageSummary :=
  dictSet m { name := p.pretty_name, old_version := some p.full_pretty_version, new_version := none }

/-- One iteration of the second loop of diff in run_poetry.py: insert a
new-only record when the name is absent, otherwise set its new_version. -/
def mergeStep (m : List PackageSummary) (p : Package) : List PackageSummary :=
  if !(m.any (fun q => q.name == p.pretty_name)) then
    m ++ [{ name := p.pretty_name, old_version := none, new_version := some p.full_pretty_version }]
  else
    setNewVersion m p.pretty_name p.full_pretty_version

/-- diff from run_poetry.py: seed from the old packages, merge the new ones,
return the dict values in insertion order. -/
def diff (old_packages new_packages : List Package) : List PackageSummary :=
  new_packages.foldl mergeStep (old_packages.foldl seedStep [])

/-- Python sorted(..., key=attrgetter("name")): a stable sort by name. -/
def sortByName (l : List PackageSummary) : List PackageSummary :=
  l.insertionSort (fun a b => a.name ≤ b.name)

/-- The header f-string of format_comment in run_poetry.py. -/
def mkHeader (n : Nat) : String :=
  "### Detected " ++ toString n ++ " changes to dependencies in Poetry lockfile\n\n"

/-- The footer f-string of format_comment in run_poetry.py. -/
def mkFooter (a r u n : Nat) : String :=
  "\n\n*(" ++ toString a ++ " added, " ++ toString r ++ " removed, "
    ++ toString u ++ " updated, " ++ toString n ++ " not changed)*"

/-- The summary-line generator consumed by str.join in format_comment; a
ValueError raised by any element propagates. -/
def mapSummaries : List PackageSummary → Except String (List String)
  | [] => Except.ok []
  | p :: rest =>
    match p.summary_line with
    | Except.error e => Except.error e
    | Except.ok s =>
      match mapSummaries rest with
      | Except.error e => Except.error e
      | Except.ok l => Except.ok (s :: l)

/-- format_comment from run_poetry.py. -/
def format_comment (packages : List PackageSummary) : Except String (Option String) :=
  let added := sortByName (packages.filter (fun p => p.added))
  let removed := sortByName (packages.filter (fun p => p.removed))
  let updated := sortByName (packages.filter (fun p => p.updated))
  let not_changed := sortByName (packages.filter (fun p => p.not_changed))
  if (added ++ removed ++ updated).length = 0 then Except.ok none
  else
    match mapSummaries (added ++ removed ++ updated) with
    | Except.error e => Except.error e
    | Except.ok lines =>
      Except.ok (some (mkHeader (added ++ removed ++ updated).length
        ++ String.intercalate "\n" lines
        ++ mkFooter added.length removed.length updated.length not_changed.length))

/-- The module-level post_comment from run_poetry.py: pick the first
existing bot comment (warning on more than one) and upsert against it. -/
def run_post_comment (pr_num : String) (existing_comments : List GithubComment)
    (comment : Option String) : Action :=
  upsert_comment pr_num existing_comments.head? comment

/-- do_diff from run_poetry.py, after GithubApi construction and with
lockfile fetching and parsing modelled by the given package lists. When
the configured PR number is falsy (absent or empty, modelled by the empty
string), the code runs settings.pr_num = api.find_pr_for_branch(...); but
pr_num is a read-only property on both pydantic v1 settings classes, not
a model field, so that assignment raises ValueError (object has no field
pr_num) whatever the lookup returned (found_pr), before any lockfile is
loaded or the diff computed. Otherwise the lockfiles are loaded, the diff
and its summary are computed, and the comment is posted to the configured
PR. The ok result carries the computed summary and the list of comment
mutations performed. -/
def do_diff (pr_num _found_pr : String) (base_packages head_packages : List Package)
    (all_comments : List GithubComment) : Except String (Option String × List Action) :=
  if pr_num = "" then Except.error "object has no field pr_num"
  else
    match format_comment (diff base_packages head_packages) with
    | Except.error e => Except.error e
    | Except.ok summary =>
      Except.ok (summary, [run_post_comment pr_num (list_comments pr_num all_comments) summary])

/-- The version attached to the last occurrence of the name n in a package
list, none when n does not occur: the write that survives the dict seeding
loop of diff. -/
def lastOldVersion (n : String) : List Package → Option String
  | [] => none
  | p :: rest =>
    match lastOldVersion n rest with
    | some v => some v
    | none => if p.pretty_name == n then some p.full_pretty_version else none

/-- How many of the four classification predicates hold of a record. -/
def classificationCount (s : PackageSummary) : Nat :=
  (if s.added then 1 else 0) + (if s.removed then 1 else 0) +
    (if s.updated then 1 else 0) + (if s.not_changed then 1 else 0)

/-- Every record satisfies exactly one of the four classification predicates. -/
lemma classificationCount_eq_one (s : PackageSummary) : classificationCount s = 1 := by
  obtain ⟨n, o, v⟩ := s
  rcases o with _ | a <;> rcases v with _ | b <;>
    simp [classificationCount, PackageSummary.added, PackageSummary.removed,
      PackageSummary.updated, PackageSummary.not_changed, PackageSummary.changed]
  by_cases h : b = a <;> simp [h]

/-- The four classification buckets partition a record list by length. -/
lemma filter_partition_length (l : List PackageSummary) :
    (l.filter (fun p => p.added)).length + (l.filter (fun p => p.removed)).length +
      (l.filter (fun p => p.updated)).length + (l.filter (fun p => p.not_changed)).length
      = l.length := by
  induction l with
  | nil => simp
  | cons s t ih =>
    have h := classificationCount_eq_one s
    unfold classificationCount at h
    cases hA : s.added <;> cases hR : s.removed <;> cases hU : s.updated <;>
      cases hN : s.not_changed <;>
      simp [hA, hR, hU, hN, List.filter_cons] at h ⊢ <;> omega

/-- Sorting by name preserves length. -/
lemma length_sortByName (l : List PackageSummary) : (sortByName l).length = l.length :=
  List.length_insertionSort _ l

/-- Sorting by name preserves membership. -/
lemma mem_sortByName {a : PackageSummary} {l : List PackageSummary} :
    a ∈ sortByName l ↔ a ∈ l :=
  (List.perm_insertionSort _ l).mem_iff

/-- summary_line succeeds on every record classified added, removed or updated. -/
lemma summary_line_ok {s : PackageSummary}
    (h : s.added = true ∨ s.removed = true ∨ s.updated = true) :
    ∃ t, s.summary_line = Except.ok t := by
  obtain ⟨n, o, v⟩ := s
  rcases o with _ | a <;> rcases v with _ | b
  · simp [PackageSummary.added, PackageSummary.removed, PackageSummary.updated,
      PackageSummary.changed, PackageSummary.not_changed] at h
  · refine ⟨"Added **" ++ n ++ "** (" ++ b ++ ")", ?_⟩
    simp [PackageSummary.summary_line, PackageSummary.added, PackageSummary.removed,
      PackageSummary.updated, PackageSummary.changed, PackageSummary.not_changed]
  · refine ⟨"Removed **" ++ n ++ "** (" ++ a ++ ")", ?_⟩
    simp [PackageSummary.summary_line, PackageSummary.added, PackageSummary.removed,
      PackageSummary.updated, PackageSummary.changed, PackageSummary.not_changed]
  · by_cases hba : b = a
    · subst hba
      simp [PackageSummary.added, PackageSummary.removed, PackageSummary.updated,
        PackageSummary.changed, PackageSummary.not_changed] at h
    · refine ⟨"Updated **" ++ n ++ "** (" ++ a ++ " -> " ++ b ++ ")", ?_⟩
      simp [PackageSummary.summary_line, PackageSummary.updated, PackageSummary.changed,
        PackageSummary.not_changed, hba]

/-- The joined generator succeeds when every record is added, removed or updated. -/
lemma mapSummaries_ok : ∀ (l : List PackageSummary),
    (∀ r ∈ l, r.added = true ∨ r.removed = true ∨ r.updated = true) →
    ∃ out, mapSummaries l = Except.ok out := by
  intro l
  induction l with
  | nil => exact fun _ => ⟨[], rfl⟩
  | cons p t ih =>
    intro h
    obtain ⟨s, hs⟩ := summary_line_ok (h p (by simp))
    obtain ⟨out, hout⟩ := ih (fun r hr => h r (by simp [hr]))
    exact ⟨s :: out, by simp [mapSummaries, hs, hout]⟩

/-- format_comment never raises: it always evaluates to a value. -/
lemma format_comment_ok (packages : List PackageSummary) :
    ∃ o, format_comment packages = Except.ok o := by
  simp only [format_comment]
  split
  · exact ⟨none, rfl⟩
  · have hmem : ∀ r ∈ sortByName (packages.filter (fun p => p.added)) ++
        sortByName (packages.filter (fun p => p.removed)) ++
        sortByName (packages.filter (fun p => p.updated)),
        r.added = true ∨ r.removed = true ∨ r.updated = true := by
      intro r hr
      rcases List.mem_append.mp hr with h1 | h1
      · rcases List.mem_append.mp h1 with h2 | h2
        · exact Or.inl (List.mem_filter.mp (mem_sortByName.mp h2)).2
        · exact Or.inr (Or.inl (List.mem_filter.mp (mem_sortByName.mp h2)).2)
      · exact Or.inr (Or.inr (List.mem_filter.mp (mem_sortByName.mp h1)).2)
    obtain ⟨out, hout⟩ := mapSummaries_ok _ hmem
    rw [hout]
    exact ⟨_, rfl⟩

/-- A member of the dict after an entry assignment is the assigned record or
an untouched record with a different key. -/
lemma dictSet_mem {m : List PackageSummary} {s r : PackageSummary}
    (h : r ∈ dictSet m s) : r = s ∨ (r ∈ m ∧ r.name ≠ s.name) := by
  unfold dictSet at h
  split at h
  · obtain ⟨p, hp, hfp⟩ := List.mem_map.mp h
    by_cases hn : p.name = s.name
    · left
      rw [← hfp]
      simp [hn]
    · right
      rw [← hfp]
      simp [hn]
      exact hp
  · rename_i hany
    rcases List.mem_append.mp h with h1 | h1
    · right
      refine ⟨h1, fun hn => ?_⟩
      have : m.any (fun p => p.name == s.name) = true :=
        List.any_eq_true.mpr ⟨r, h1, by simp [hn]⟩
      simp_all
    · left
      simpa using h1

/-- An entry assignment never removes a key from the dict. -/
lemma dictSet_any_name {m : List PackageSummary} {s : PackageSummary} {n : String}
    (h : m.any (fun q => q.name == n) = true) :
    (dictSet m s).any (fun q => q.name == n) = true := by
  obtain ⟨p, hp, hpn⟩ := List.any_eq_true.mp h
  unfold dictSet
  split
  · apply List.any_eq_true.mpr
    refine ⟨if p.name == s.name then s else p, List.mem_map_of_mem _ hp, ?_⟩
    by_cases hc : p.name = s.name
    · rw [beq_iff_eq] at hpn
      have hsn : s.name = n := by rw [← hc]; exact hpn
      simp [hc, hsn]
    · simpa [hc] using hpn
  · exact List.any_eq_true.mpr ⟨p, List.mem_append_left _ hp, hpn⟩

/-- After an entry assignment the assigned key is present. -/
lemma dictSet_any_self (m : List PackageSummary) (s : PackageSummary) :
    (dictSet m s).any (fun q => q.name == s.name) = true := by
  unfold dictSet
  split
  · rename_i hany
    obtain ⟨p, hp, hpn⟩ := List.any_eq_true.mp hany
    exact List.any_eq_true.mpr
      ⟨s, List.mem_map.mpr ⟨p, hp, by simp [hpn]⟩, by simp⟩
  · exact List.any_eq_true.mpr ⟨s, List.mem_append_right _ (by simp), by simp⟩

/-- Keys present in the accumulator stay present through the seeding loop. -/
lemma seedFold_any_mono : ∀ (rest : List Package) (acc : List PackageSummary) (n : String),
    acc.any (fun q => q.name == n) = true →
    (List.foldl seedStep acc rest).any (fun q => q.name == n) = true := by
  intro rest
  induction rest with
  | nil => intro acc n h; simpa using h
  | cons p ps ih =>
    intro acc n h
    rw [List.foldl_cons]
    exact ih _ n (dictSet_any_name h)

/-- Every name occurring in the old list is a key of the seeded dict. -/
lemma seedFold_any : ∀ (rest : List Package) (acc : List PackageSummary) (n : String),
    lastOldVersion n rest ≠ none →
    (List.foldl seedStep acc rest).any (fun q => q.name == n) = true := by
  intro rest
  induction rest with
  | nil => intro acc n h; simp [lastOldVersion] at h
  | cons p ps ih =>
    intro acc n h
    rw [List.foldl_cons]
    cases hrec : lastOldVersion n ps with
    | some v => exact ih _ n (by simp [hrec])
    | none =>
      have hcond : p.pretty_name = n := by
        by_contra hc
        simp [lastOldVersion, hrec, hc] at h
      apply seedFold_any_mono
      have hself := dictSet_any_self acc
        { name := p.pretty_name, old_version := some p.full_pretty_version, new_version := none }
      rw [show seedStep acc p = dictSet acc
        { name := p.pretty_name, old_version := some p.full_pretty_version, new_version := none }
        from rfl]
      simpa [hcond] using hself

/-- The record stored for a name by the seeding loop holds the version of
the last occurrence of that name; names that do not occur are untouched. -/
lemma seedFold_old_version :
    ∀ (rest : List Package) (acc : List PackageSummary) (r : PackageSummary),
      r ∈ List.foldl seedStep acc rest →
      (lastOldVersion r.name rest = none → r ∈ acc) ∧
      (∀ v, lastOldVersion r.name rest = some v →
        r.old_version = some v ∧ r.new_version = none) := by
  intro rest
  induction rest with
  | nil =>
    intro acc r h
    exact ⟨fun _ => by simpa using h, fun v hv => by simp [lastOldVersion] at hv⟩
  | cons p ps ih =>
    intro acc r h
    rw [List.foldl_cons] at h
    have H := ih (seedStep acc p) r h
    constructor
    · intro hnone
      cases hrec : lastOldVersion r.name ps with
      | some v => simp [lastOldVersion, hrec] at hnone
      | none =>
        have hcond : ¬(p.pretty_name = r.name) := by
          by_contra hc
          simp [lastOldVersion, hrec, hc] at hnone
        rcases dictSet_mem (H.1 hrec) with he | ⟨hm, _⟩
        · exact absurd (by rw [he]) hcond
        · exact hm
    · intro v hv
      cases hrec : lastOldVersion r.name ps with
      | some w =>
        have : w = v := by simp [lastOldVersion, hrec] at hv; exact hv
        exact this ▸ H.2 w hrec
      | none =>
        have hcond : p.pretty_name = r.name ∧ p.full_pretty_version = v := by
          by_cases hc : p.pretty_name = r.name
          · refine ⟨hc, ?_⟩
            simp [lastOldVersion, hrec, hc] at hv
            exact hv
          · simp [lastOldVersion, hrec, hc] at hv
        rcases dictSet_mem (H.1 hrec) with he | ⟨_, hne⟩
        · rw [he]
          simp [hcond.2]
        · exact absurd hcond.1 (fun he => hne (by rw [← he]))

/-- The seeded dict stores, for every record, the last version of its name
in the old list. -/
lemma seeded_old_version {old_packages : List Package} {r : PackageSummary}
    (h : r ∈ List.foldl seedStep [] old_packages) :
    r.old_version = lastOldVersion r.name old_packages := by
  have H := seedFold_old_version old_packages [] r h
  cases hl : lastOldVersion r.name old_packages with
  | none => exact absurd (H.1 hl) (by simp)
  | some v => exact (H.2 v hl).1

/-- Setting a new_version field changes no names. -/
lemma setNewVersion_names (m : List PackageSummary) (n v : String) :
    (setNewVersion m n v).map (fun q => q.name) = m.map (fun q => q.name) := by
  unfold setNewVersion
  induction m with
  | nil => rfl
  | cons p ps ih =>
    by_cases h : p.name = n
    all_goals
      simp [h]
      intro a _
      by_cases ha : a.name = n <;> simp [ha]

/-- A key-membership test only looks at the projected keys. -/
lemma any_map_beq {α : Type} (l : List α) (f : α → String) (n : String) :
    l.any (fun x => f x == n) = (l.map f).any (fun s => s == n) := by
  induction l with
  | nil => rfl
  | cons a t ih => simp [ih]

/-- Lists with the same names agree on every key-membership test. -/
lemma any_name_eq {m₁ m₂ : List PackageSummary}
    (h : m₁.map (fun q => q.name) = m₂.map (fun q => q.name)) (n : String) :
    m₁.any (fun q => q.name == n) = m₂.any (fun q => q.name == n) := by
  rw [any_map_beq m₁ (fun q => q.name) n, any_map_beq m₂ (fun q => q.name) n, h]

/-- The merge loop preserves the stored old_version of every record: each
record keeps the version of the last occurrence of its name in the old
list, and newly inserted records have names that never occur in it. -/
lemma mergeFold_old_version :
    ∀ (new_packages : List Package) (acc : List PackageSummary) (old_packages : List Package),
      (∀ r ∈ acc, r.old_version = lastOldVersion r.name old_packages) →
      (∀ n, lastOldVersion n old_packages ≠ none → acc.any (fun q => q.name == n) = true) →
      ∀ r ∈ List.foldl mergeStep acc new_packages,
        r.old_version = lastOldVersion r.name old_packages := by
  intro new_packages
  induction new_packages with
  | nil =>
    intro acc old_packages h1 _ r hr
    exact h1 r (by simpa using hr)
  | cons p ps ih =>
    intro acc old_packages h1 h2 r hr
    rw [List.foldl_cons] at hr
    by_cases hc : acc.any (fun q => q.name == p.pretty_name) = true
    · have hm : mergeStep acc p = setNewVersion acc p.pretty_name p.full_pretty_version := by
        simp [mergeStep, hc]
      rw [hm] at hr
      refine ih _ old_packages ?_ ?_ r hr
      · intro q hq
        unfold setNewVersion at hq
        obtain ⟨q0, hq0, hfq⟩ := List.mem_map.mp hq
        by_cases hqn : q0.name = p.pretty_name
        · rw [← hfq]
          simpa [hqn] using h1 q0 hq0
        · rw [← hfq]
          simpa [hqn] using h1 q0 hq0
      · intro n hn
        rw [any_name_eq (setNewVersion_names acc p.pretty_name p.full_pretty_version) n]
        exact h2 n hn
    · have hm : mergeStep acc p = acc ++
          [{ name := p.pretty_name, old_version := none, new_version := some p.full_pretty_version }] := by
        simp [mergeStep, hc]
      rw [hm] at hr
      refine ih _ old_packages ?_ ?_ r hr
      · intro q hq
        rcases List.mem_append.mp hq with h | h
        · exact h1 q h
        · have hq' := List.mem_singleton.mp h
          subst hq'
          cases hl : lastOldVersion p.pretty_name old_packages with
          | none => simp
          | some v => exact absurd (h2 p.pretty_name (by simp [hl])) (by simpa using hc)
      · intro n hn
        obtain ⟨q, hq, hqn⟩ := List.any_eq_true.mp (h2 n hn)
        exact List.any_eq_true.mpr ⟨q, List.mem_append_left _ hq, hqn⟩

/-- A key-membership test is a membership test on the projected names. -/
lemma any_name_eq_mem (m : List PackageSummary) (n : String) :
    m.any (fun q => q.name == n) = true ↔ n ∈ m.map (fun q => q.name) := by
  rw [List.any_eq_true]
  constructor
  · rintro ⟨q, hq, hqn⟩
    exact List.mem_map.mpr ⟨q, hq, by simpa using hqn⟩
  · intro h
    obtain ⟨q, hq, hqn⟩ := List.mem_map.mp h
    exact ⟨q, hq, by simp [hqn]⟩

/-- A name-membership test on packages is a membership test on the names. -/
lemma any_pname_eq_mem (l : List Package) (n : String) :
    l.any (fun p => p.pretty_name == n) = true ↔ n ∈ l.map (fun p => p.pretty_name) := by
  rw [List.any_eq_true]
  constructor
  · rintro ⟨q, hq, hqn⟩
    exact List.mem_map.mpr ⟨q, hq, by simpa using hqn⟩
  · intro h
    obtain ⟨q, hq, hqn⟩ := List.mem_map.mp h
    exact ⟨q, hq, by simp [hqn]⟩

/-- With unique names that are all fresh for the accumulator, the seeding
loop appends one record per old package, in the given order. -/
lemma seedFold_names :
    ∀ (rest : List Package) (acc : List PackageSummary),
      (rest.map (fun p => p.pretty_name)).Nodup →
      (∀ n ∈ rest.map (fun p => p.pretty_name), acc.any (fun q => q.name == n) = false) →
      (List.foldl seedStep acc rest).map (fun q => q.name) =
        acc.map (fun q => q.name) ++ rest.map (fun p => p.pretty_name) := by
  intro rest
  induction rest with
  | nil => intro acc _ _; simp
  | cons p ps ih =>
    intro acc hnd hfresh
    rw [List.map_cons] at hnd
    obtain ⟨hp_notmem, hnd'⟩ := List.nodup_cons.mp hnd
    have hpfresh : acc.any (fun q => q.name == p.pretty_name) = false :=
      hfresh p.pretty_name (by simp)
    have hstep : seedStep acc p = acc ++
        [{ name := p.pretty_name, old_version := some p.full_pretty_version, new_version := none }] := by
      unfold seedStep dictSet
      simp [hpfresh]
    rw [List.foldl_cons, hstep, ih _ hnd' ?_]
    · simp
    · intro n hn
      rw [List.any_append]
      have h1 : acc.any (fun q => q.name == n) = false := hfresh n (by simp [hn])
      have h2 : p.pretty_name ≠ n := fun he => hp_notmem (he ▸ hn)
      simp [h1, h2]

/-- With unique new names, the merge loop keeps the accumulated names and
appends the names absent from the accumulator, in the given order. -/
lemma mergeFold_names :
    ∀ (new_packages : List Package) (acc : List PackageSummary),
      (new_packages.map (fun p => p.pretty_name)).Nodup →
      (List.foldl mergeStep acc new_packages).map (fun q => q.name) =
        acc.map (fun q => q.name) ++
          (new_packages.filter
            (fun q => !(acc.any (fun p => p.name == q.pretty_name)))).map (fun p => p.pretty_name) := by
  intro new_packages
  induction new_packages with
  | nil => intro acc _; simp
  | cons p ps ih =>
    intro acc hnd
    rw [List.map_cons] at hnd
    obtain ⟨hp_notmem, hnd'⟩ := List.nodup_cons.mp hnd
    rw [List.foldl_cons]
    by_cases hc : acc.any (fun q => q.name == p.pretty_name) = true
    · have hm : mergeStep acc p = setNewVersion acc p.pretty_name p.full_pretty_version := by
        simp [mergeStep, hc]
      rw [hm, ih _ hnd', setNewVersion_names]
      rw [List.filter_cons]
      have hdrop : (!(acc.any (fun q => q.name == p.pretty_name))) = false := by simp [hc]
      rw [hdrop]
      simp only [Bool.false_eq_true, if_false]
      have htransfer : ∀ q ∈ ps,
          (!((setNewVersion acc p.pretty_name p.full_pretty_version).any
            (fun t => t.name == q.pretty_name)))
          = (!(acc.any (fun t => t.name == q.pretty_name))) := by
        intro q _
        rw [any_name_eq (setNewVersion_names acc p.pretty_name p.full_pretty_version)]
      rw [List.filter_congr htransfer]
    · have hm : mergeStep acc p = acc ++
          [{ name := p.pretty_name, old_version := none, new_version := some p.full_pretty_version }] := by
        simp [mergeStep, hc]
      rw [hm, ih _ hnd']
      rw [List.filter_cons]
      have hkeep : (!(acc.any (fun q => q.name == p.pretty_name))) = true := by simp [hc]
      rw [hkeep]
      simp only [if_true]
      have htransfer : ∀ q ∈ ps,
          (!((acc ++ [({ name := p.pretty_name, old_version := none, new_version := some p.full_pretty_version } : PackageSummary)]).any (fun t => t.name == q.pretty_name)))
          = (!(acc.any (fun t => t.name == q.pretty_name))) := by
        intro q hq
        have hne : p.pretty_name ≠ q.pretty_name :=
          fun he => hp_notmem (he ▸ List.mem_map_of_mem _ hq)
        simp [List.any_append, hne]
      rw [List.filter_congr htransfer]
      simp

/-- C1 (amended): upsert_comment follows the decision table, except that the
create row only posts when the new body is nonempty and a pull-request
number is available; with an empty body or no pull-request number the
create path performs no action. All other rows hold as stated: no existing
comment and no body gives no action; an existing comment and no body gives
a delete of that comment id; an existing comment and a body whose
marker-prefixed form equals the existing body gives no action; an existing
comment and a body whose marker-prefixed form differs gives an update. -/
theorem upsert_comment_decision_table (pr_num : String) (e : GithubComment) (c : String) :
    upsert_comment pr_num none none = Action.noop ∧
    (c ≠ "" → pr_num ≠ "" →
      upsert_comment pr_num none (some c) = Action.create (MAGIC_COMMENT_IDENTIFIER ++ c)) ∧
    ((c = "" ∨ pr_num = "") → upsert_comment pr_num none (some c) = Action.noop) ∧
    upsert_comment pr_num (some e) none = Action.delete e.id_ ∧
    (e.body = MAGIC_COMMENT_IDENTIFIER ++ c →
      upsert_comment pr_num (some e) (some c) = Action.noop) ∧
    (e.body ≠ MAGIC_COMMENT_IDENTIFIER ++ c →
      upsert_comment pr_num (some e) (some c) = Action.update e.id_ (MAGIC_COMMENT_IDENTIFIER ++ c)) := by
  refine ⟨rfl, ?_, ?_, rfl, ?_, ?_⟩
  · intro hc hpr
    simp [upsert_comment, post_comment_action, hc, hpr]
  · rintro (hc | hpr)
    · simp [upsert_comment, post_comment_action, hc]
    · by_cases hc : c = "" <;> simp [upsert_comment, post_comment_action, hc, hpr]
  · intro hb
    simp [upsert_comment, hb]
  · intro hb
    simp [upsert_comment, update_comment_action, hb]

/-- C1 counterexample: with no existing comment and a present but empty new
body, the code performs no action instead of the create the decision table
of the claim demands. -/
theorem upsert_comment_empty_body_not_create :
    upsert_comment "1" none (some "") = Action.noop ∧
    ¬ ∃ b, upsert_comment "1" none (some "") = Action.create b := by
  constructor
  · rfl
  · rintro ⟨b, hb⟩
    simp [upsert_comment, post_comment_action] at hb

/-- C1 witness: the create and update rows at concrete inputs. -/
theorem upsert_comment_decision_table_witness :
    upsert_comment "1" none (some "y") = Action.create (MAGIC_COMMENT_IDENTIFIER ++ "y") ∧
    upsert_comment "1" (some { body := "x", id_ := 3, user := { id_ := 1 } }) (some "y")
      = Action.update 3 (MAGIC_COMMENT_IDENTIFIER ++ "y") := by
  constructor
  · exact (upsert_comment_decision_table "1" { body := "x", id_ := 3, user := { id_ := 1 } } "y").2.1
      (by decide) (by decide)
  · exact (upsert_comment_decision_table "1" { body := "x", id_ := 3, user := { id_ := 1 } } "y").2.2.2.2.2
      (by decide)

/-- C2: the reconciler is idempotent. If the existing comment body equals
the marker concatenated with the new body, no action is taken; and if the
decision is a create or an update, applying it to the remote tracking
comment and re-deciding with the same new body yields no action, because
create and update always send the marker-prefixed body. -/
theorem upsert_comment_idempotent (pr_num : String) (e : Option GithubComment) (c : String)
    (new_id : Nat) :
    (∀ ex, e = some ex → ex.body = MAGIC_COMMENT_IDENTIFIER ++ c →
      upsert_comment pr_num e (some c) = Action.noop) ∧
    ((upsert_comment pr_num e (some c)).isCreateOrUpdate = true →
      upsert_comment pr_num (applyAction new_id (upsert_comment pr_num e (some c)) e) (some c)
        = Action.noop) := by
  constructor
  · rintro ex rfl hb
    simp [upsert_comment, hb]
  · intro hcu
    cases e with
    | none =>
      by_cases hc : c = ""
      · simp [upsert_comment, post_comment_action, hc, Action.isCreateOrUpdate] at hcu
      · by_cases hpr : pr_num = ""
        · simp [upsert_comment, post_comment_action, hc, hpr, Action.isCreateOrUpdate] at hcu
        · simp [upsert_comment, post_comment_action, hc, hpr, applyAction]
    | some ex =>
      by_cases hb : ex.body = MAGIC_COMMENT_IDENTIFIER ++ c
      · simp [upsert_comment, hb, Action.isCreateOrUpdate] at hcu
      · simp [upsert_comment, update_comment_action, hb, applyAction]

/-- C2 witness: no action on an already-reconciled comment, and no action
after applying an update to a stale comment. -/
theorem upsert_comment_idempotent_witness :
    upsert_comment "1"
      (some { body := MAGIC_COMMENT_IDENTIFIER ++ "x", id_ := 7, user := { id_ := 41898282 } })
      (some "x") = Action.noop ∧
    upsert_comment "1"
      (applyAction 9
        (upsert_comment "1" (some { body := "old", id_ := 7, user := { id_ := 41898282 } }) (some "x"))
        (some { body := "old", id_ := 7, user := { id_ := 41898282 } }))
      (some "x") = Action.noop := by
  constructor
  · exact (upsert_comment_idempotent "1"
      (some { body := MAGIC_COMMENT_IDENTIFIER ++ "x", id_ := 7, user := { id_ := 41898282 } })
      "x" 9).1 _ rfl rfl
  · exact (upsert_comment_idempotent "1"
      (some { body := "old", id_ := 7, user := { id_ := 41898282 } }) "x" 9).2 (by decide)

/-- C3 counterexample: on an old list repeating the name a with versions 1
then 2, diff seeds the record with the version of the last occurrence,
not the first. -/
theorem diff_duplicate_name_last_wins_example :
    diff [{ pretty_name := "a", full_pretty_version := "1" },
        { pretty_name := "a", full_pretty_version := "2" }] []
      = [{ name := "a", old_version := some "2", new_version := none }] ∧
    (some "2" : Option String) ≠ some "1" := by
  exact ⟨by decide, by decide⟩

/-- C3 (amended): for every input, each record produced by diff carries as
old_version the version of the last occurrence of its name in the old list
(none when the name does not occur there); diff is total, so it never
crashes on duplicate names. -/
theorem diff_old_version_is_last_occurrence (old_packages new_packages : List Package)
    (r : PackageSummary) (h : r ∈ diff old_packages new_packages) :
    r.old_version = lastOldVersion r.name old_packages := by
  unfold diff at h
  refine mergeFold_old_version new_packages _ old_packages ?_ ?_ r h
  · intro q hq
    exact seeded_old_version hq
  · intro n hn
    exact seedFold_any old_packages [] n hn

/-- C3 witness: the duplicated name a ends up with the last version 2. -/
theorem diff_old_version_is_last_occurrence_witness :
    ({ name := "a", old_version := some "2", new_version := none } : PackageSummary).old_version
      = lastOldVersion "a" [{ pretty_name := "a", full_pretty_version := "1" },
          { pretty_name := "a", full_pretty_version := "2" }] :=
  diff_old_version_is_last_occurrence
    [{ pretty_name := "a", full_pretty_version := "1" },
      { pretty_name := "a", full_pretty_version := "2" }] []
    { name := "a", old_version := some "2", new_version := none } (by decide)

/-- C4: on a record list containing a record with both versions absent plus
one added record, format_comment succeeds and silently counts the invalid
record in the not-changed footer bucket, raising no error, even though
summary_line raises the Inconsistent State internal error on that very
record: the formatting path never surfaces the error the claim demands. -/
theorem format_comment_both_absent_counted_unchanged :
    format_comment [{ name := "a", old_version := none, new_version := none },
        { name := "b", old_version := none, new_version := some "1.0" }]
      = Except.ok (some ("### Detected 1 changes to dependencies in Poetry lockfile\n\n"
          ++ "Added **b** (1.0)"
          ++ "\n\n*(1 added, 0 removed, 0 updated, 1 not changed)*")) ∧
    PackageSummary.summary_line { name := "a", old_version := none, new_version := none }
      = Except.error "Inconsistent State" := by
  exact ⟨by rfl, by rfl⟩

/-- C5: when no record is classified added, removed or updated (in
particular when every record is unchanged), format_comment returns none. -/
theorem format_comment_no_changes_none (packages : List PackageSummary)
    (h : ∀ p ∈ packages, p.added = false ∧ p.removed = false ∧ p.updated = false) :
    format_comment packages = Except.ok none := by
  have ha : packages.filter (fun p => p.added) = [] :=
    List.filter_eq_nil_iff.mpr (fun a hm => by simp [(h a hm).1])
  have hr : packages.filter (fun p => p.removed) = [] :=
    List.filter_eq_nil_iff.mpr (fun a hm => by simp [(h a hm).2.1])
  have hu : packages.filter (fun p => p.updated) = [] :=
    List.filter_eq_nil_iff.mpr (fun a hm => by simp [(h a hm).2.2])
  simp [format_comment, ha, hr, hu, sortByName, List.insertionSort]

/-- C5 witness: a single unchanged record formats to none. -/
theorem format_comment_no_changes_none_witness :
    format_comment [{ name := "a", old_version := some "1", new_version := some "1" }]
      = Except.ok none :=
  format_comment_no_changes_none _ (by decide)

/-- C6: whenever format_comment returns a string, that string is the header
stating the count added+removed+updated, a body, and the footer stating
the four bucket counts, whose sum is the number of input records. -/
theorem format_comment_counts (packages : List PackageSummary) (s : String)
    (h : format_comment packages = Except.ok (some s)) :
    ∃ body, s = mkHeader ((packages.filter (fun p => p.added)).length
          + (packages.filter (fun p => p.removed)).length
          + (packages.filter (fun p => p.updated)).length)
        ++ body
        ++ mkFooter (packages.filter (fun p => p.added)).length
          (packages.filter (fun p => p.removed)).length
          (packages.filter (fun p => p.updated)).length
          (packages.filter (fun p => p.not_changed)).length
      ∧ (packages.filter (fun p => p.added)).length
          + (packages.filter (fun p => p.removed)).length
          + (packages.filter (fun p => p.updated)).length
          + (packages.filter (fun p => p.not_changed)).length = packages.length := by
  simp only [format_comment] at h
  split at h
  · exact absurd h (by simp)
  · split at h
    · exact absurd h (by simp)
    · rename_i lines hlines
      simp only [Except.ok.injEq, Option.some.injEq] at h
      subst h
      refine ⟨String.intercalate "\n" lines, ?_, filter_partition_length packages⟩
      simp only [List.length_append, length_sortByName]

/-- C6 witness: one added record gives header count one and footer counts
summing to one. -/
theorem format_comment_counts_witness :
    ∃ body, ("### Detected 1 changes to dependencies in Poetry lockfile\n\n"
          ++ "Added **b** (1.0)"
          ++ "\n\n*(1 added, 0 removed, 0 updated, 0 not changed)*")
        = mkHeader 1 ++ body ++ mkFooter 1 0 0 0
      ∧ 1 + 0 + 0 + 0 = 1 :=
  format_comment_counts [{ name := "b", old_version := none, new_version := some "1.0" }]
    ("### Detected 1 changes to dependencies in Poetry lockfile\n\n"
      ++ "Added **b** (1.0)"
      ++ "\n\n*(1 added, 0 removed, 0 updated, 0 not changed)*") (by rfl)

/-- C7: every record produced by diff on inputs with unique names satisfies
exactly one of the four classification predicates, and diff is a pure
function, so repeated calls with the same inputs agree. -/
theorem diff_classification_exactly_one (old_packages new_packages : List Package)
    (_h1 : (old_packages.map (fun p => p.pretty_name)).Nodup)
    (_h2 : (new_packages.map (fun p => p.pretty_name)).Nodup) :
    (∀ r ∈ diff old_packages new_packages, classificationCount r = 1) ∧
    diff old_packages new_packages = diff old_packages new_packages :=
  ⟨fun r _ => classificationCount_eq_one r, rfl⟩

/-- C7 witness: the sole record of a one-package diff has exactly one
classification. -/
theorem diff_classification_exactly_one_witness :
    classificationCount { name := "a", old_version := some "1", new_version := none } = 1 :=
  (diff_classification_exactly_one [{ pretty_name := "a", full_pretty_version := "1" }] []
    (by decide) (by decide)).1
    { name := "a", old_version := some "1", new_version := none } (by decide)

/-- C8: with unique names, diff returns one record per distinct name, all
names from the old list first in their original order, then the names only
in the new list in their original order. -/
theorem diff_output_order (old_packages new_packages : List Package)
    (h1 : (old_packages.map (fun p => p.pretty_name)).Nodup)
    (h2 : (new_packages.map (fun p => p.pretty_name)).Nodup) :
    (diff old_packages new_packages).map (fun r => r.name) =
      old_packages.map (fun p => p.pretty_name) ++
        (new_packages.filter
          (fun q => !(old_packages.any (fun p => p.pretty_name == q.pretty_name)))).map
          (fun p => p.pretty_name) ∧
    ((diff old_packages new_packages).map (fun r => r.name)).Nodup := by
  have hseed : (List.foldl seedStep [] old_packages).map (fun q => q.name)
      = old_packages.map (fun p => p.pretty_name) := by
    have := seedFold_names old_packages [] h1 (fun n _ => rfl)
    simpa using this
  have htransfer : ∀ q ∈ new_packages,
      (!((List.foldl seedStep [] old_packages).any (fun t => t.name == q.pretty_name)))
      = (!(old_packages.any (fun p => p.pretty_name == q.pretty_name))) := by
    intro q _
    congr 1
    rw [any_map_beq (List.foldl seedStep [] old_packages) (fun t => t.name) q.pretty_name,
      hseed, ← any_map_beq old_packages (fun p => p.pretty_name) q.pretty_name]
  have hmain := mergeFold_names new_packages (List.foldl seedStep [] old_packages) h2
  rw [List.filter_congr htransfer] at hmain
  have hnames : (diff old_packages new_packages).map (fun r => r.name) =
      old_packages.map (fun p => p.pretty_name) ++
        (new_packages.filter
          (fun q => !(old_packages.any (fun p => p.pretty_name == q.pretty_name)))).map
          (fun p => p.pretty_name) := by
    unfold diff
    rw [hmain, hseed]
  refine ⟨hnames, ?_⟩
  rw [hnames]
  refine List.Nodup.append h1 ?_ ?_
  · exact h2.sublist (List.Sublist.map _ (List.filter_sublist _))
  · intro n hn1 hn2
    obtain ⟨q, hqf, hqn⟩ := List.mem_map.mp hn2
    have hcond := (List.mem_filter.mp hqf).2
    have hmem : old_packages.any (fun p => p.pretty_name == q.pretty_name) = true :=
      (any_pname_eq_mem _ _).mpr (hqn ▸ hn1)
    simp [hmem] at hcond

/-- C8 witness: a concrete diff lists the old name first, then the new-only
name, each exactly once. -/
theorem diff_output_order_witness :
    (diff [{ pretty_name := "a", full_pretty_version := "1" }]
        [{ pretty_name := "b", full_pretty_version := "2" },
          { pretty_name := "a", full_pretty_version := "3" }]).map (fun r => r.name) =
      ([{ pretty_name := "a", full_pretty_version := "1" }] : List Package).map
          (fun p => p.pretty_name) ++
        (([{ pretty_name := "b", full_pretty_version := "2" },
          { pretty_name := "a", full_pretty_version := "3" }] : List Package).filter
          (fun q => !(([{ pretty_name := "a", full_pretty_version := "1" }] : List Package).any
            (fun p => p.pretty_name == q.pretty_name)))).map (fun p => p.pretty_name) ∧
    ((diff [{ pretty_name := "a", full_pretty_version := "1" }]
        [{ pretty_name := "b", full_pretty_version := "2" },
          { pretty_name := "a", full_pretty_version := "3" }]).map (fun r => r.name)).Nodup :=
  diff_output_order [{ pretty_name := "a", full_pretty_version := "1" }]
    [{ pretty_name := "b", full_pretty_version := "2" },
      { pretty_name := "a", full_pretty_version := "3" }] (by decide) (by decide)

/-- C9: when no PR number is configured, do_diff crashes with the pydantic
ValueError raised by assigning the read-only pr_num property, whatever the
branch lookup returns, before computing any diff and without attempting
any comment mutation: the run is an error outcome, not the success with a
logged diff that the claim describes. -/
theorem do_diff_no_pr_crashes (found_pr : String) (base_packages head_packages : List Package)
    (all_comments : List GithubComment) :
    do_diff "" found_pr base_packages head_packages all_comments
      = Except.error "object has no field pr_num" := rfl

/-- C10: every comment returned by list_comments has a body starting with
the tracking marker and the hard-coded bot author id, and a comment with a
marker-prefixed body but a different author id is never returned. -/
theorem list_comments_only_bot_comments (pr_num : String) (all_comments : List GithubComment)
    (c : GithubComment) :
    (c ∈ list_comments pr_num all_comments →
      strStartsWith c.body MAGIC_COMMENT_IDENTIFIER = true ∧ c.user.id_ = MAGIC_BOT_USER_ID) ∧
    (strStartsWith c.body MAGIC_COMMENT_IDENTIFIER = true → c.user.id_ ≠ MAGIC_BOT_USER_ID →
      c ∉ list_comments pr_num all_comments) := by
  have key : c ∈ list_comments pr_num all_comments →
      strStartsWith c.body MAGIC_COMMENT_IDENTIFIER = true ∧ c.user.id_ = MAGIC_BOT_USER_ID := by
    intro hmem
    unfold list_comments at hmem
    split at hmem
    · simp at hmem
    · have hbot := (List.mem_filter.mp hmem).2
      unfold GithubComment.is_bot_comment at hbot
      rw [Bool.and_eq_true] at hbot
      exact ⟨hbot.1, by simpa using hbot.2⟩
  exact ⟨key, fun _ hid hmem => hid (key hmem).2⟩

/-- C10 witness: a marker-prefixed bot-authored comment is recognized, and
a marker-prefixed comment by another author is filtered out. -/
theorem list_comments_only_bot_comments_witness :
    (strStartsWith (MAGIC_COMMENT_IDENTIFIER ++ "hi") MAGIC_COMMENT_IDENTIFIER = true
      ∧ 41898282 = MAGIC_BOT_USER_ID) ∧
    ({ body := MAGIC_COMMENT_IDENTIFIER ++ "hi", id_ := 2, user := { id_ := 5 } } : GithubComment)
      ∉ list_comments "1"
        [{ body := MAGIC_COMMENT_IDENTIFIER ++ "hi", id_ := 2, user := { id_ := 5 } }] := by
  constructor
  · exact (list_comments_only_bot_comments "1"
      [{ body := MAGIC_COMMENT_IDENTIFIER ++ "hi", id_ := 1, user := { id_ := 41898282 } }]
      { body := MAGIC_COMMENT_IDENTIFIER ++ "hi", id_ := 1, user := { id_ := 41898282 } }).1
      (by decide)
  · exact (list_comments_only_bot_comments "1"
      [{ body := MAGIC_COMMENT_IDENTIFIER ++ "hi", id_ := 2, user := { id_ := 5 } }]
      { body := MAGIC_COMMENT_IDENTIFIER ++ "hi", id_ := 2, user := { id_ := 5 } }).2
      (by decide) (by decide)

end DiffPoetryLock
